import Mathlib

/-!
Verification of the go-dcb distributed circuit breaker.

The definitions below are a shallow embedding of the repository's Go
sources.  The breaker state machine is translated from the current
`CircuitBreaker` in the repository (the static variant: `Fire`,
`getOrSetState`, `tryReset`, `trigger`, `handleFail`, `handleSuccess`,
`Reset`), the Redlock state from `cache/reditCache.go` (`RunCritical`,
`lock`), the exponential backoff from the `policies` package
(`NewExponential`, `Duration`) and the channel teardown from
`circuitbreaker.go` (`Destroy`).

Modelling conventions:
* machine integers become `Nat`/`Int`; Go `time.Time` values are
  nanoseconds since an epoch as `Int`, the zero value `time.Time{}` is `0`;
* the state store is a single-ID cell (`Option Circuit`) with scripted
  fault injection: one `Bool` per successive `Get`/`Set` call saying
  whether that call returns an error (an empty script means no errors);
* channel sends become an appended event list, in emission order;
* within one `Fire` the code is sequential (every decision point runs
  inside the critical section), so `Fire` is a function of the scripted
  store, the current clock reading and the scripted attempt outcomes.
-/

deriving instance DecidableEq for Except

namespace GoDcb

/-- Circuit states, from `schema/schema.go`: `Closed`, `Open`, `HalfOpen`,
`Isolate` (iota 0..3). -/
inductive CState
  | Closed
  | Open
  | HalfOpen
  | Isolate
deriving DecidableEq

/-- The circuit record, from `schema/schema.go` (`State`, `Failures`,
`OpenedAt`).  `failures` is the consecutive-failure counter, `openedAt`
nanoseconds (zero `time.Time` is `0`). -/
structure Circuit where
  state : CState
  failures : Nat
  openedAt : Int
deriving DecidableEq

/-- Events sent on the breaker's channels (`circuitChan` with a state tag,
and `fallbackChan`). -/
inductive Ev
  | closedE
  | openE
  | halfOpenE
  | fallbackE
deriving DecidableEq

/-- Single-ID view of the state store (`schema.Cache`): the stored record
plus fault-injection scripts.  Each `Get`/`Set` consumes the head of its
script; `true` means the call returns a `StoreError`.  An exhausted script
means no error. -/
structure SStore where
  circuit : Option Circuit
  getErrs : List Bool
  setErrs : List Bool
deriving DecidableEq

/-- `cache.Get(ID)`: returns the record (or `none` for a missing key), or a
store error when scripted. -/
def sGet (st : SStore) : Except Unit (Option Circuit) × SStore :=
  match st.getErrs with
  | [] => (.ok st.circuit, st)
  | b :: rest =>
      if b then (.error (), { st with getErrs := rest })
      else (.ok st.circuit, { st with getErrs := rest })

/-- `cache.Set(ID, c)`: stores the record, or returns a store error when
scripted (a failed `Set` leaves the stored record unchanged). -/
def sSet (c : Circuit) (st : SStore) : Except Unit Unit × SStore :=
  match st.setErrs with
  | [] => (.ok (), { st with circuit := some c })
  | b :: rest =>
      if b then (.error (), { st with setErrs := rest })
      else (.ok (), { st with circuit := some c, setErrs := rest })

/-- Errors a `Fire` can surface. -/
inductive FErr
  | storeErr
  | circuitOpenErr
  | opErr (code : Int)
  | timeoutErr
  | nilHandlerPanic
deriving DecidableEq

/-- Critical section of `handleFail(err)`: reload the record; missing
record or `Open` state return the error unchanged; otherwise increment
`Failures`, trip to `Open` (recording `OpenedAt := now` and emitting an
Open event) when `Failures > threshold`, emit a Fallback event and persist
(the `cache.Set` error is discarded by the code).  The final `Bool` is
whether the `Set` call persisted. -/
def failCommit (threshold : Nat) (now : Int) (err : FErr) (st : SStore) :
    Except FErr (Option Int) × SStore × List Ev × Bool :=
  match sGet st with
  | (.error _, st1) => (.error .storeErr, st1, [], false)
  | (.ok none, st1) => (.error err, st1, [], false)
  | (.ok (some c), st1) =>
      if c.state = CState.Open then (.error err, st1, [], false)
      else
        let c1 : Circuit := { c with failures := c.failures + 1 }
        let tripped := c1.failures > threshold
        let c2 : Circuit :=
          if tripped then { c1 with state := CState.Open, openedAt := now } else c1
        let evs : List Ev := (if tripped then [Ev.openE] else []) ++ [Ev.fallbackE]
        match sSet c2 st1 with
        | (.error _, st2) => (.error err, st2, evs, false)
        | (.ok _, st2) => (.error err, st2, evs, true)

/-- Critical section of `handleSuccess(value)`: reload the record; missing
or already-`Closed` records return the value with no state change;
otherwise set `State := Closed`, `Failures := 0`, persist (the `Set` error
is discarded) and emit a Closed event. -/
def successCommit (value : Option Int) (st : SStore) :
    Except FErr (Option Int) × SStore × List Ev × Bool :=
  match sGet st with
  | (.error _, st1) => (.error .storeErr, st1, [], false)
  | (.ok none, st1) => (.ok value, st1, [], false)
  | (.ok (some c), st1) =>
      if c.state = CState.Closed then (.ok value, st1, [], false)
      else
        let c1 : Circuit := { c with state := CState.Closed, failures := 0 }
        match sSet c1 st1 with
        | (.error _, st2) => (.ok value, st2, [Ev.closedE], false)
        | (.ok _, st2) => (.ok value, st2, [Ev.closedE], true)

/-- `Reset(ID)` through `safelyUpdateCircuit`: a `Get` error yields `false`
with no mutation; a missing record makes the Go code dereference a nil
pointer (modelled as `.error ()`); otherwise set `(Closed, 0, 0)`, emit a
Closed event, persist, and report whether the `Set` stuck. -/
def resetCommit (st : SStore) :
    Except Unit Bool × SStore × List Ev × Bool :=
  match sGet st with
  | (.error _, st1) => (.ok false, st1, [], false)
  | (.ok none, st1) => (.error (), st1, [], false)
  | (.ok (some c), st1) =>
      let c1 : Circuit := { c with state := CState.Closed, openedAt := 0, failures := 0 }
      match sSet c1 st1 with
      | (.error _, st2) => (.ok false, st2, [Ev.closedE], false)
      | (.ok _, st2) => (.ok true, st2, [Ev.closedE], true)

/-- `Isolate(ID)` through `safelyUpdateCircuit`: set `State := Isolate`,
emit Open and Fallback events, persist. -/
def isolateCommit (st : SStore) :
    Except Unit Bool × SStore × List Ev × Bool :=
  match sGet st with
  | (.error _, st1) => (.ok false, st1, [], false)
  | (.ok none, st1) => (.error (), st1, [], false)
  | (.ok (some c), st1) =>
      let c1 : Circuit := { c with state := CState.Isolate }
      match sSet c1 st1 with
      | (.error _, st2) => (.ok false, st2, [Ev.openE, Ev.fallbackE], false)
      | (.ok _, st2) => (.ok true, st2, [Ev.openE, Ev.fallbackE], true)

/-- `getOrSetState(ID)`: load the record; when missing, persist the fresh
`(Closed, 0, 0)` record and use it; `Get`/`Set` errors abort. -/
def getOrSetState (st : SStore) : Except FErr Circuit × SStore :=
  match sGet st with
  | (.error _, st1) => (.error .storeErr, st1)
  | (.ok (some c), st1) => (.ok c, st1)
  | (.ok none, st1) =>
      let c0 : Circuit := ⟨CState.Closed, 0, 0⟩
      match sSet c0 st1 with
      | (.error _, st2) => (.error .storeErr, st2)
      | (.ok _, st2) => (.ok c0, st2)

/-- Critical section of `tryReset(ID)`.  `gracePeriodMs` is in
milliseconds and times in nanoseconds, so the Go comparison
`float64(elapsedNs) * 1e-06 > float64(gracePeriodMs)` is
`now - openedAt > gracePeriodMs * 1000000`.  On the move to `HalfOpen` the
record is persisted (the `Set` error is discarded) and a HalfOpen event
emitted — and the function still returns `false`.  It returns `true` only
for a missing record. -/
def tryReset (gracePeriodMs : Int) (now : Int) (st : SStore) :
    Except FErr Bool × SStore × List Ev :=
  match sGet st with
  | (.error _, st1) => (.error .storeErr, st1, [])
  | (.ok none, st1) => (.ok true, st1, [])
  | (.ok (some c), st1) =>
      if c.state = CState.Open ∧ now - c.openedAt > gracePeriodMs * 1000000 then
        let c1 : Circuit := { c with state := CState.HalfOpen }
        let (_, st2) := sSet c1 st1
        (.ok false, st2, [Ev.halfOpenE])
      else (.ok false, st1, [])

/-- One attempt's observable outcome in `trigger`'s select loop: `none`
is a per-attempt timeout; `some r` is the operation's `fnResult`
(`res`, `err`). -/
structure FnResult where
  res : Option Int
  err : Option Int
deriving DecidableEq

/-- The `handler` chosen by `trigger`'s loop; `nilH` is Go's nil handler
(dereferenced when `retry = 0`). -/
inductive Handler
  | nilH
  | failH (e : FErr)
  | successH (v : Option Int)
deriving DecidableEq

/-- `trigger`'s retry loop (`for tryCounter < retry`): a timeout bumps the
counter and records a fail handler for the synthetic timeout error; a
received result picks `handleFail` when `value.err ≠ nil` and the fail
condition holds, `handleSuccess` otherwise, and exits the loop. -/
def triggerLoop (retry : Nat) (failCond : Int → Bool) :
    Nat → Handler → List (Option FnResult) → Handler
  | _, h, [] => h
  | tc, h, a :: rest =>
      if tc ≥ retry then h
      else
        match a with
        | none => triggerLoop retry failCond (tc + 1) (Handler.failH FErr.timeoutErr) rest
        | some v =>
            match v.err with
            | some e => if failCond e then Handler.failH (FErr.opErr e) else Handler.successH v.res
            | none => Handler.successH v.res

/-- Dispatch the handler chosen by the loop (the `HANDLE` label). -/
def runHandler (threshold : Nat) (now : Int) (h : Handler) (st : SStore) :
    Except FErr (Option Int) × SStore × List Ev × Bool :=
  match h with
  | Handler.nilH => (.error .nilHandlerPanic, st, [], false)
  | Handler.failH e => failCommit threshold now e st
  | Handler.successH v => successCommit v st

/-- Breaker configuration (`options` after defaulting): grace period,
threshold, retry budget and the fail condition.  The per-attempt timeout
and backoff only decide which `Option FnResult` entries appear in the
attempt script, so they carry no further state here. -/
structure Cfg where
  gracePeriodMs : Int
  threshold : Nat
  retry : Nat
  failCond : Int → Bool

/-- `trigger(ID, fn)`: run the retry loop over the scripted attempts, then
commit the chosen handler.  The final `Bool` records whether the wrapped
operation was launched at all (the first loop iteration launches it
whenever the retry budget is positive). -/
def trigger (cfg : Cfg) (now : Int) (atts : List (Option FnResult)) (st : SStore) :
    Except FErr (Option Int) × SStore × List Ev × Bool :=
  let h := triggerLoop cfg.retry cfg.failCond 0 Handler.nilH atts
  let (r, st1, evs, _) := runHandler cfg.threshold now h st
  (r, st1, evs, decide (0 < cfg.retry) && decide (atts ≠ []))

/-- `Fire(ID, fn)` of the current static breaker: read-or-initialise the
record; `Isolate` short-circuits (Fallback event plus a CircuitOpen
error); `Open` asks `tryReset` and short-circuits unless it returned
`true`; `Closed`/`HalfOpen` (or `tryReset = true`) fall through to
`trigger` and the outcome commit.  Returns the result, the store after the
call, the emitted events in order, and whether the wrapped operation was
launched. -/
def fire (cfg : Cfg) (now : Int) (atts : List (Option FnResult)) (st : SStore) :
    Except FErr (Option Int) × SStore × List Ev × Bool :=
  match getOrSetState st with
  | (.error e, st1) => (.error e, st1, [], false)
  | (.ok c, st1) =>
      if c.state = CState.Isolate then
        (.error .circuitOpenErr, st1, [Ev.fallbackE], false)
      else if c.state = CState.Open then
        match tryReset cfg.gracePeriodMs now st1 with
        | (.error e, st2, evs) => (.error e, st2, evs, false)
        | (.ok true, st2, evs) =>
            let (r, st3, evs2, ran) := trigger cfg now atts st2
            (r, st3, evs ++ evs2, ran)
        | (.ok false, st2, evs) =>
            (.error .circuitOpenErr, st2, evs ++ [Ev.fallbackE], false)
      else
        trigger cfg now atts st1

/-- One scripted `Fire` call: the clock reading, the attempt outcomes, and
this call's store fault scripts. -/
structure FireCall where
  now : Int
  atts : List (Option FnResult)
  getErrs : List Bool
  setErrs : List Bool

/-- A sequence of `Fire` calls against the same ID, threading the stored
record. -/
def fireSeq (cfg : Cfg) : List FireCall → Option Circuit → Option Circuit
  | [], c => c
  | k :: rest, c =>
      fireSeq cfg rest (fire cfg k.now k.atts ⟨c, k.getErrs, k.setErrs⟩).2.1.circuit

/-- A run of consecutive failure commits (each entry: the commit's clock
reading and the committed error), threading the stored record against a
fault-free store and collecting events. -/
def failSeq (threshold : Nat) : List (Int × FErr) → Option Circuit → Option Circuit × List Ev
  | [], c => (c, [])
  | (now, e) :: rest, c =>
      let (_, st1, evs, _) := failCommit threshold now e ⟨c, [], []⟩
      let (c2, evs2) := failSeq threshold rest st1.circuit
      (c2, evs ++ evs2)

/-! ## Theorems -/

/-- A `Fire` against an `Isolate` record never mutates the stored record,
whatever the clock, the attempt outcomes or the store fault script. -/
lemma fire_isolate_fixed (cfg : Cfg) (now : Int) (atts : List (Option FnResult))
    (ge se : List Bool) (c : Circuit) (h : c.state = CState.Isolate) :
    (fire cfg now atts ⟨some c, ge, se⟩).2.1.circuit = some c := by
  rcases ge with _ | ⟨b, rest⟩
  · simp [fire, getOrSetState, sGet, h]
  · cases b <;> simp [fire, getOrSetState, sGet, h]

/-- C3: the record state Isolate is terminal under `Fire`: no sequence of
`Fire` calls — whatever their clock readings, attempt outcomes or store
faults — moves a record whose state is `Isolate` to any other state (or
changes it at all). -/
theorem isolate_terminal_under_fire (cfg : Cfg) (calls : List FireCall) (c : Circuit)
    (h : c.state = CState.Isolate) :
    fireSeq cfg calls (some c) = some c := by
  induction calls with
  | nil => rfl
  | cons k rest ih =>
      simpa [fireSeq, fire_isolate_fixed cfg k.now k.atts k.getErrs k.setErrs c h] using ih

theorem isolate_terminal_under_fire_witness :
    (Circuit.mk CState.Isolate 3 5).state = CState.Isolate ∧
      fireSeq ⟨500, 1, 3, fun _ => true⟩
        [⟨900000000, [some ⟨some 1, none⟩], [], []⟩, ⟨1800000000, [none, none, none], [], []⟩]
        (some ⟨CState.Isolate, 3, 5⟩) = some ⟨CState.Isolate, 3, 5⟩ :=
  ⟨by decide, isolate_terminal_under_fire ⟨500, 1, 3, fun _ => true⟩
    [⟨900000000, [some ⟨some 1, none⟩], [], []⟩, ⟨1800000000, [none, none, none], [], []⟩]
    ⟨CState.Isolate, 3, 5⟩ (by decide)⟩

/-- C1: divergence exhibit.  Configuration: grace period 500 ms, threshold
1, retry 3.  The stored record is `Open` with `opened_at = 0` and the
clock reads 500000001 ns, so `now − opened_at` strictly exceeds the grace
period.  The operation would succeed (it returns 42 on its first attempt).
The single `Fire` transitions the record to `HalfOpen`, persists it and
emits a HalfOpen event — but then emits a Fallback event and returns the
synthetic CircuitOpen error, and the wrapped operation is never launched
(final component `false`), because `tryReset` returns `false` even after a
successful Open→HalfOpen move. -/
theorem fire_after_grace_probes_next_call :
    fire ⟨500, 1, 3, fun _ => true⟩ 500000001 [some ⟨some 42, none⟩]
        ⟨some ⟨CState.Open, 2, 0⟩, [], []⟩
      = (.error .circuitOpenErr, ⟨some ⟨CState.HalfOpen, 2, 0⟩, [], []⟩,
          [Ev.halfOpenE, Ev.fallbackE], false) := by
  decide

/-- A failure commit on a fault-free store against a `Closed` record that
stays under the threshold: the counter increments, the state stays
`Closed`, only a Fallback event is emitted. -/
lemma failCommit_closed_noTrip (threshold : Nat) (now : Int) (e : FErr) (f : Nat) (w : Int)
    (h : f + 1 ≤ threshold) :
    failCommit threshold now e ⟨some ⟨CState.Closed, f, w⟩, [], []⟩ =
      (.error e, ⟨some ⟨CState.Closed, f + 1, w⟩, [], []⟩, [Ev.fallbackE], true) := by
  have hc : ¬ (f + 1 > threshold) := by omega
  simp [failCommit, sGet, sSet, hc]

/-- A failure commit on a fault-free store against a `Closed` record whose
incremented counter exceeds the threshold: the record trips to `Open`
with `openedAt := now` and Open and Fallback events are emitted. -/
lemma failCommit_closed_trip (threshold : Nat) (now : Int) (e : FErr) (f : Nat) (w : Int)
    (h : f + 1 > threshold) :
    failCommit threshold now e ⟨some ⟨CState.Closed, f, w⟩, [], []⟩ =
      (.error e, ⟨some ⟨CState.Open, f + 1, now⟩, [], []⟩, [Ev.openE, Ev.fallbackE], true) := by
  simp [failCommit, sGet, sSet, h]

/-- `failSeq` splits over list append: run the first commits, then the
rest from the record they left, concatenating events. -/
lemma failSeq_append (threshold : Nat) (a b : List (Int × FErr)) (c : Option Circuit) :
    failSeq threshold (a ++ b) c =
      ((failSeq threshold b (failSeq threshold a c).1).1,
        (failSeq threshold a c).2 ++ (failSeq threshold b (failSeq threshold a c).1).2) := by
  induction a generalizing c with
  | nil => simp [failSeq]
  | cons p rest ih =>
      obtain ⟨now, e⟩ := p
      simp [failSeq, ih, List.append_assoc]

/-- A run of failure commits that never exceeds the threshold just counts
up from `f`, leaving the record `Closed` and emitting one Fallback event
per commit. -/
lemma failSeq_closed (threshold : Nat) (w : Int) :
    ∀ (ts : List (Int × FErr)) (f : Nat), f + ts.length ≤ threshold →
      failSeq threshold ts (some ⟨CState.Closed, f, w⟩) =
        (some ⟨CState.Closed, f + ts.length, w⟩, List.replicate ts.length Ev.fallbackE) := by
  intro ts
  induction ts with
  | nil => intro f _; simp [failSeq]
  | cons p rest ih =>
      intro f h
      obtain ⟨now, e⟩ := p
      have h1 : f + 1 ≤ threshold := by simp at h; omega
      have h2 : (f + 1) + rest.length ≤ threshold := by simp at h; omega
      simp only [failSeq, failCommit_closed_noTrip threshold now e f w h1, ih (f + 1) h2]
      simp [List.replicate_succ, show f + 1 + rest.length = f + (rest.length + 1) by omega]

/-- C4: with `threshold = k` and a record starting at `(Closed, 0, ⊥)`,
after exactly `k+1` consecutive committed failures the record is `Open`
with `opened_at` equal to the last commit's clock reading, exactly one
Open event was emitted across the streak, and after each of the first `k`
commits the record was still `Closed` with `failures` equal to the number
of commits so far and no Open event emitted. -/
theorem threshold_trips_open (k : Nat) (ts : List (Int × FErr)) (tl : Int) (e : FErr)
    (hlen : ts.length = k) :
    (failSeq k (ts ++ [(tl, e)]) (some ⟨CState.Closed, 0, 0⟩)).1 = some ⟨CState.Open, k + 1, tl⟩
  ∧ ((failSeq k (ts ++ [(tl, e)]) (some ⟨CState.Closed, 0, 0⟩)).2.count Ev.openE = 1)
  ∧ ∀ i ≤ k,
      (failSeq k ((ts ++ [(tl, e)]).take i) (some ⟨CState.Closed, 0, 0⟩)).1
          = some ⟨CState.Closed, i, 0⟩
        ∧ ((failSeq k ((ts ++ [(tl, e)]).take i)
              (some ⟨CState.Closed, 0, 0⟩)).2.count Ev.openE = 0) := by
  have hfull :
      failSeq k (ts ++ [(tl, e)]) (some ⟨CState.Closed, 0, 0⟩) =
        (some ⟨CState.Open, k + 1, tl⟩,
          List.replicate k Ev.fallbackE ++ [Ev.openE, Ev.fallbackE]) := by
    rw [failSeq_append]
    rw [failSeq_closed k 0 ts 0 (by omega)]
    have hstep :
        failSeq k [(tl, e)] (some ⟨CState.Closed, 0 + ts.length, 0⟩) =
          (some ⟨CState.Open, k + 1, tl⟩, [Ev.openE, Ev.fallbackE]) := by
      simp only [failSeq, failCommit_closed_trip k tl e (0 + ts.length) 0 (by omega)]
      simp [hlen]
    rw [hstep]
    simp [hlen]
  refine ⟨by rw [hfull], by rw [hfull]; simp [List.count_append, List.count_replicate], ?_⟩
  intro i hi
  have htake : (ts ++ [(tl, e)]).take i = ts.take i := by
    exact List.take_append_of_le_length (by omega)
  have hlt : (ts.take i).length = i := by
    simp [List.length_take]; omega
  rw [htake, show (some (Circuit.mk CState.Closed 0 0)) =
      some ⟨CState.Closed, 0, 0⟩ from rfl]
  rw [failSeq_closed k 0 (ts.take i) 0 (by omega)]
  simp [hlt, List.count_replicate]

theorem threshold_trips_open_witness :
    ([((5 : Int), FErr.opErr 7)]).length = 1 ∧
      (failSeq 1 ([((5 : Int), FErr.opErr 7)] ++ [((9 : Int), FErr.opErr 7)])
          (some ⟨CState.Closed, 0, 0⟩)).1 = some ⟨CState.Open, 2, 9⟩ :=
  ⟨by decide, (threshold_trips_open 1 [((5 : Int), FErr.opErr 7)] 9 (FErr.opErr 7) (by decide)).1⟩

lemma sGet_snd (st : SStore) : (sGet st).2.circuit = st.circuit ∧ (sGet st).2.setErrs = st.setErrs := by
  rcases st with ⟨c, ge, se⟩
  rcases ge with _ | ⟨b, rest⟩
  · simp [sGet]
  · cases b <;> simp [sGet]

lemma sGet_ok (st : SStore) (v : Option Circuit) (h : (sGet st).1 = .ok v) : v = st.circuit := by
  rcases st with ⟨c, ge, se⟩
  rcases ge with _ | ⟨b, rest⟩
  · simp [sGet] at h; exact h.symm
  · cases b <;> simp [sGet] at h
    exact h.symm

lemma sSet_ok_circuit (c : Circuit) (st : SStore) (h : (sSet c st).1 = .ok ()) :
    (sSet c st).2.circuit = some c := by
  rcases st with ⟨c0, ge, se⟩
  rcases se with _ | ⟨b, rest⟩
  · simp [sSet]
  · cases b <;> simp [sSet] at h ⊢

/-- The invariant pair checked after a committed transition (final `Bool`
of the output true, i.e. the `Set` persisted): if the stored record is
`Closed` its counter is at most the threshold, and if the transition
entered `Closed` from elsewhere the counter is zero. -/
def closedInvAfter (threshold : Nat) (c0 : Circuit) {α : Type}
    (out : α × SStore × List Ev × Bool) : Prop :=
  out.2.2.2 = true → ∀ c1 : Circuit, out.2.1.circuit = some c1 →
    (c1.state = CState.Closed → c1.failures ≤ threshold) ∧
    (c0.state ≠ CState.Closed → c1.state = CState.Closed → c1.failures = 0)

lemma closedInvAfter_failCommit (threshold : Nat) (now : Int) (e : FErr) (c0 : Circuit)
    (ge se : List Bool) :
    closedInvAfter threshold c0 (failCommit threshold now e ⟨some c0, ge, se⟩) := by
  intro hp c1 hc1
  have hall := And.intro hp hc1
  clear hp hc1
  simp only [failCommit] at hall
  split at hall
  next x st1 heq => simp at hall
  next st1 heq => simp at hall
  next c st1 heq =>
    split at hall
    · simp at hall
    next ho =>
      by_cases ht : c.failures + 1 > threshold
      · simp only [if_pos ht] at hall
        split at hall
        next st2 heq2 => simp at hall
        next u st2 heq2 =>
          simp only at hall
          have h3 := sSet_ok_circuit (Circuit.mk CState.Open (c.failures + 1) now) st1
            (by rw [heq2])
          rw [heq2] at h3
          rw [h3] at hall
          obtain rfl : c1 = Circuit.mk CState.Open (c.failures + 1) now :=
            (Option.some_inj.mp hall.2).symm
          exact ⟨fun hcl => by simp at hcl, fun _ hcl => by simp at hcl⟩
      · simp only [if_neg ht] at hall
        split at hall
        next st2 heq2 => simp at hall
        next u st2 heq2 =>
          simp only at hall
          have h3 := sSet_ok_circuit (Circuit.mk c.state (c.failures + 1) c.openedAt) st1
            (by rw [heq2])
          rw [heq2] at h3
          rw [h3] at hall
          obtain rfl : c1 = Circuit.mk c.state (c.failures + 1) c.openedAt :=
            (Option.some_inj.mp hall.2).symm
          have hcc : c = c0 := Option.some_inj.mp (sGet_ok _ _ (by rw [heq]))
          refine ⟨fun _ => by simp; omega, fun hne hcl => ?_⟩
          simp at hcl
          rw [← hcc] at hne
          exact absurd hcl hne

lemma closedInvAfter_successCommit (threshold : Nat) (v : Option Int) (c0 : Circuit)
    (ge se : List Bool) :
    closedInvAfter threshold c0 (successCommit v ⟨some c0, ge, se⟩) := by
  intro hp c1 hc1
  have hall := And.intro hp hc1
  clear hp hc1
  simp only [successCommit] at hall
  split at hall
  next x st1 heq => simp at hall
  next st1 heq => simp at hall
  next c st1 heq =>
    have hc : c = c0 := Option.some_inj.mp (sGet_ok _ _ (by rw [heq]))
    split at hall
    · simp at hall
    · split at hall
      next st2 heq2 => simp at hall
      next u st2 heq2 =>
        simp only at hall
        have h2 : st2.circuit = some { c with state := CState.Closed, failures := 0 } := by
          have h3 := sSet_ok_circuit { c with state := CState.Closed, failures := 0 } _
            (by rw [heq2])
          rw [heq2] at h3
          exact h3
        rw [h2] at hall
        obtain rfl : c1 = { c with state := CState.Closed, failures := 0 } :=
          (Option.some_inj.mp hall.2).symm
        exact ⟨fun _ => Nat.zero_le _, fun _ _ => rfl⟩

lemma closedInvAfter_resetCommit (threshold : Nat) (c0 : Circuit) (ge se : List Bool) :
    closedInvAfter threshold c0 (resetCommit ⟨some c0, ge, se⟩) := by
  intro hp c1 hc1
  have hall := And.intro hp hc1
  clear hp hc1
  simp only [resetCommit] at hall
  split at hall
  next x st1 heq => simp at hall
  next st1 heq => simp at hall
  next c st1 heq =>
    split at hall
    next st2 heq2 => simp at hall
    next u st2 heq2 =>
      simp only at hall
      have h3 := sSet_ok_circuit (Circuit.mk CState.Closed 0 0) st1 (by rw [heq2])
      rw [heq2] at h3
      rw [h3] at hall
      obtain rfl : c1 = Circuit.mk CState.Closed 0 0 := (Option.some_inj.mp hall.2).symm
      exact ⟨fun _ => Nat.zero_le _, fun _ _ => rfl⟩

/-- C5: after every committed transition produced by the failure commit,
the success commit or `Reset` (against a record `c0`, under any store
fault script), if the stored record is `Closed` then `failures ≤
threshold`, and every transition that entered `Closed` from a non-`Closed`
state set `failures` to 0. -/
theorem closed_invariants_after_commit (threshold : Nat) (now : Int) (e : FErr)
    (v : Option Int) (c0 : Circuit) (ge se : List Bool) :
    closedInvAfter threshold c0 (failCommit threshold now e ⟨some c0, ge, se⟩) ∧
    closedInvAfter threshold c0 (successCommit v ⟨some c0, ge, se⟩) ∧
    closedInvAfter threshold c0 (resetCommit ⟨some c0, ge, se⟩) :=
  ⟨closedInvAfter_failCommit threshold now e c0 ge se,
   closedInvAfter_successCommit threshold v c0 ge se,
   closedInvAfter_resetCommit threshold c0 ge se⟩

theorem closed_invariants_after_commit_witness :
    (successCommit (some 5) ⟨some ⟨CState.HalfOpen, 3, 0⟩, [], []⟩).2.2.2 = true ∧
    (successCommit (some 5) ⟨some ⟨CState.HalfOpen, 3, 0⟩, [], []⟩).2.1.circuit
        = some ⟨CState.Closed, 0, 0⟩ ∧
    (Circuit.mk CState.Closed 0 0).failures = 0 :=
  ⟨by decide, by decide,
    ((closed_invariants_after_commit 1 0 (FErr.opErr 7) (some 5)
        ⟨CState.HalfOpen, 3, 0⟩ [] []).2.1 (by decide) ⟨CState.Closed, 0, 0⟩
        (by decide)).2 (by decide) (by decide)⟩

/-- C6 (amended): a `Get` error at any of a `Fire`'s read sites — the
initial read, `tryReset`'s reload, or the outcome commit's reload — aborts
that `Fire` with the store error, and so does a `Set` error during lazy
initialisation; but a `Set` error during the half-open transition or
inside the success or failure commit is ignored — the `Fire` still returns
the outcome it would otherwise report and still emits its events, only
nothing is persisted; and a failed `Set` never changes the stored record,
so no partial state update is ever persisted. -/
theorem store_error_containment :
    (∀ (cfg : Cfg) (now : Int) (atts : List (Option FnResult)) (c : Option Circuit)
        (ge se : List Bool),
      fire cfg now atts ⟨c, true :: ge, se⟩ = (.error .storeErr, ⟨c, ge, se⟩, [], false)) ∧
    (∀ (cfg : Cfg) (now : Int) (atts : List (Option FnResult)) (c : Circuit) (ge se : List Bool),
      c.state = CState.Open →
      fire cfg now atts ⟨some c, false :: true :: ge, se⟩ =
        (.error .storeErr, ⟨some c, ge, se⟩, [], false)) ∧
    (∀ (cfg : Cfg) (now : Int) (atts : List (Option FnResult)) (c : Circuit) (ge se : List Bool),
      (c.state = CState.Closed ∨ c.state = CState.HalfOpen) →
      triggerLoop cfg.retry cfg.failCond 0 Handler.nilH atts ≠ Handler.nilH →
      (fire cfg now atts ⟨some c, false :: true :: ge, se⟩).1 = .error .storeErr ∧
      (fire cfg now atts ⟨some c, false :: true :: ge, se⟩).2.1 = ⟨some c, ge, se⟩ ∧
      (fire cfg now atts ⟨some c, false :: true :: ge, se⟩).2.2.1 = []) ∧
    (∀ (cfg : Cfg) (now : Int) (atts : List (Option FnResult)) (se : List Bool),
      fire cfg now atts ⟨none, [], true :: se⟩ = (.error .storeErr, ⟨none, [], se⟩, [], false)) ∧
    (∀ (cfg : Cfg) (now : Int) (atts : List (Option FnResult)) (c : Circuit),
      c.state = CState.Open → now - c.openedAt > cfg.gracePeriodMs * 1000000 →
      fire cfg now atts ⟨some c, [], [true]⟩ =
        (.error .circuitOpenErr, ⟨some c, [], []⟩, [Ev.halfOpenE, Ev.fallbackE], false)) ∧
    (∀ (v : Option Int) (c : Circuit), c.state ≠ CState.Closed →
      successCommit v ⟨some c, [], [true]⟩ = (.ok v, ⟨some c, [], []⟩, [Ev.closedE], false)) ∧
    (∀ (threshold : Nat) (now : Int) (e : FErr) (c : Circuit), c.state ≠ CState.Open →
      failCommit threshold now e ⟨some c, [], [true]⟩ =
        (.error e, ⟨some c, [], []⟩,
          (if c.failures + 1 > threshold then [Ev.openE] else []) ++ [Ev.fallbackE], false)) ∧
    (∀ (c : Circuit) (st : SStore),
      (sSet c st).1 = .error () → (sSet c st).2.circuit = st.circuit) := by
  refine ⟨?_, ?_, ?_, ?_, ?_, ?_, ?_, ?_⟩
  · intro cfg now atts c ge se
    simp [fire, getOrSetState, sGet]
  · intro cfg now atts c ge se h
    simp [fire, getOrSetState, sGet, tryReset, h]
  · intro cfg now atts c ge se hc hh
    rcases hth : triggerLoop cfg.retry cfg.failCond 0 Handler.nilH atts with _ | e | v
    · exact absurd hth hh
    · rcases hc with h | h <;>
        simp [fire, getOrSetState, sGet, trigger, runHandler, hth, failCommit, h]
    · rcases hc with h | h <;>
        simp [fire, getOrSetState, sGet, trigger, runHandler, hth, successCommit, h]
  · intro cfg now atts se
    simp [fire, getOrSetState, sGet, sSet]
  · intro cfg now atts c h1 h2
    simp [fire, getOrSetState, sGet, tryReset, sSet, h1, h2]
  · intro v c h
    simp [successCommit, sGet, sSet, h]
  · intro threshold now e c h
    by_cases ht : c.failures + 1 > threshold <;> simp [failCommit, sGet, sSet, h, ht]
  · intro c st h
    rcases st with ⟨c0, ge, se⟩
    rcases se with _ | ⟨b, rest⟩
    · simp [sSet] at h
    · cases b <;> simp [sSet] at h ⊢

theorem store_error_containment_witness :
    ((Circuit.mk CState.HalfOpen 2 0).state ≠ CState.Closed) ∧
    successCommit (some 1) ⟨some ⟨CState.HalfOpen, 2, 0⟩, [], [true]⟩
      = (.ok (some 1), ⟨some ⟨CState.HalfOpen, 2, 0⟩, [], []⟩, [Ev.closedE], false) :=
  ⟨by decide,
    store_error_containment.2.2.2.2.2.1 (some 1) ⟨CState.HalfOpen, 2, 0⟩ (by decide)⟩

/-- C6: counterexample.  The stored record is `HalfOpen`, the operation
succeeds with 42 on its first attempt, and the success commit's
`cache.Set` is scripted to fail.  The `Fire` neither aborts nor surfaces a
store error: it returns the operation's value, the stored record is left
untouched (`HalfOpen` with its old counters), and a Closed event is still
emitted — contradicting the claim that every `Get`/`Set` error aborts the
`Fire` with the store error. -/
theorem set_error_in_commit_not_surfaced :
    fire ⟨500, 1, 3, fun _ => true⟩ 0 [some ⟨some 42, none⟩]
        ⟨some ⟨CState.HalfOpen, 0, 0⟩, [], [true]⟩
      = (.ok (some 42), ⟨some ⟨CState.HalfOpen, 0, 0⟩, [], []⟩, [Ev.closedE], true) ∧
    (fire ⟨500, 1, 3, fun _ => true⟩ 0 [some ⟨some 42, none⟩]
        ⟨some ⟨CState.HalfOpen, 0, 0⟩, [], [true]⟩).1 ≠ .error .storeErr := by
  decide

/-! ## Redlock (`cache/reditCache.go`) -/

/-- Redlock parameters used by `lock` (`retryCount`, `driftFactor`,
`ttlMs`; `retryDelayMs` only sleeps, so it leaves no trace here). -/
structure RedLockC where
  retryCount : Nat
  driftFactor : ℚ
  ttlMs : Nat

/-- One acquisition round's observable data: each client's set-if-absent
outcome (the booleans received from the per-instance goroutines) and the
measured `costTimeMs` (elapsed milliseconds of the round). -/
structure RoundData where
  clientOk : List Bool
  elapsedMs : Int
deriving DecidableEq

/-- The `success` counter: one channel receive per client, incremented on
`true`. -/
def successCount : List Bool → Nat
  | [] => 0
  | b :: rest => (if b then 1 else 0) + successCount rest

/-- `driftMs := int(float64(ttlMs)*rl.driftFactor) + 2`; for the
nonnegative products arising here Go's float-to-int truncation is the
floor. -/
def driftMs (cfg : RedLockC) : Int := ⌊(cfg.ttlMs : ℚ) * cfg.driftFactor⌋ + 2

/-- `validityTime := int64(ttlMs) - costTimeMs - int64(driftMs)`. -/
def validityTime (cfg : RedLockC) (elapsedMs : Int) : Int :=
  (cfg.ttlMs : Int) - elapsedMs - driftMs cfg

/-- One round's acceptance test:
`success >= quorum && validityTime > 0` with `quorum := N/2 + 1` where `N`
is the number of client instances. -/
def roundOk (cfg : RedLockC) (r : RoundData) : Bool :=
  decide (successCount r.clientOk ≥ r.clientOk.length / 2 + 1) &&
    decide (validityTime cfg r.elapsedMs > 0)

/-- `lock`'s retry loop (`for i := 0; i < rl.retryCount; i++`): the first
accepted round returns success, otherwise unlock, sleep and retry;
exhaustion returns the `LockUnavailable`-kind error (`"Failed to lock"`). -/
def lockLoop (cfg : RedLockC) : Nat → List RoundData → Except Unit Unit
  | 0, _ => .error ()
  | _ + 1, [] => .error ()
  | n + 1, r :: rest => if roundOk cfg r then .ok () else lockLoop cfg n rest

/-- `lock(ID)` over a script of per-round data. -/
def lock (cfg : RedLockC) (rounds : List RoundData) : Except Unit Unit :=
  lockLoop cfg cfg.retryCount rounds

/-- `RunCritical(ID, fn)` of `RedLock`: the code calls `rl.lock(...)`,
discards its result, defers `unlock`, and runs `fn` unconditionally,
returning `fn`'s result. -/
def RunCritical (cfg : RedLockC) (rounds : List RoundData)
    (fn : Unit → Except FErr (Option Int)) : Except FErr (Option Int) :=
  let _ := lock cfg rounds
  fn ()

/-- A round whose data all comes up false never unlocks the loop. -/
lemma lockLoop_all_fail (cfg : RedLockC) :
    ∀ (n : Nat) (rounds : List RoundData),
      (∀ r ∈ rounds, roundOk cfg r = false) → lockLoop cfg n rounds = .error () := by
  intro n
  induction n with
  | zero => intro rounds _; rfl
  | succ m ih =>
      intro rounds hall
      cases rounds with
      | nil => rfl
      | cons r rest =>
          have hr : roundOk cfg r = false := hall r (by simp)
          simp only [lockLoop, hr, Bool.false_eq_true, if_false]
          exact ih rest fun x hx => hall x (by simp [hx])

/-- C7: a Redlock acquisition round succeeds exactly when the per-instance
success count reaches `⌊N/2⌋ + 1` and the computed validity
`ttl_ms − elapsed − (⌊ttl_ms × drift_factor⌋ + 2)` is strictly positive;
and when all `retry_count` rounds fail the test, `lock` returns the
`LockUnavailable`-kind error. -/
theorem redlock_round_and_exhaustion :
    (∀ (cfg : RedLockC) (r : RoundData),
      roundOk cfg r = true ↔
        (successCount r.clientOk ≥ r.clientOk.length / 2 + 1 ∧
          (cfg.ttlMs : Int) - r.elapsedMs - (⌊(cfg.ttlMs : ℚ) * cfg.driftFactor⌋ + 2) > 0)) ∧
    (∀ (cfg : RedLockC) (rounds : List RoundData),
      rounds.length = cfg.retryCount →
      (∀ r ∈ rounds, roundOk cfg r = false) →
      lock cfg rounds = .error ()) := by
  constructor
  · intro cfg r
    simp [roundOk, validityTime, driftMs]
  · intro cfg rounds _ hall
    exact lockLoop_all_fail cfg cfg.retryCount rounds hall

theorem redlock_round_and_exhaustion_witness :
    ([⟨[false], 0⟩, ⟨[false], 0⟩, ⟨[false], 0⟩] : List RoundData).length = 3 ∧
    lock ⟨3, 1 / 100, 500⟩ [⟨[false], 0⟩, ⟨[false], 0⟩, ⟨[false], 0⟩] = .error () :=
  ⟨by decide, redlock_round_and_exhaustion.2 ⟨3, 1 / 100, 500⟩
    [⟨[false], 0⟩, ⟨[false], 0⟩, ⟨[false], 0⟩] (by decide) (by decide)⟩

/-- C2: divergence exhibit.  `RunCritical` always returns the operation's
result — including when lock acquisition failed.  Concretely: one client
instance whose set-if-absent fails in all three rounds makes `lock` return
the `LockUnavailable`-kind error, yet `RunCritical` on the same script
still runs the operation and returns its value instead of surfacing the
error. -/
theorem runCritical_ignores_lock_failure :
    (∀ (cfg : RedLockC) (rounds : List RoundData) (fn : Unit → Except FErr (Option Int)),
        RunCritical cfg rounds fn = fn ()) ∧
    lock ⟨3, 1 / 100, 500⟩ [⟨[false], 0⟩, ⟨[false], 5⟩, ⟨[false], 9⟩] = .error () ∧
    RunCritical ⟨3, 1 / 100, 500⟩ [⟨[false], 0⟩, ⟨[false], 5⟩, ⟨[false], 9⟩]
        (fun _ => .ok (some 42)) = .ok (some 42) :=
  ⟨fun _ _ _ => rfl, by decide, rfl⟩

/-! ## Breaker teardown (`circuitbreaker.go`) -/

/-- A Go channel's close flag: `close(ch)` on an already-closed channel
panics (`"close of closed channel"`), modelled as `.error ()`. -/
structure GoChan where
  isClosed : Bool
deriving DecidableEq

/-- `close(ch)`. -/
def closeChan (c : GoChan) : Except Unit GoChan :=
  if c.isClosed then .error () else .ok ⟨true⟩

/-- The four event channels created by `NewCircuitBreaker`. -/
structure BreakerChans where
  closedCh : GoChan
  openCh : GoChan
  halfOpenCh : GoChan
  fallbackCh : GoChan
deriving DecidableEq

/-- `NewCircuitBreaker` makes all four channels, open. -/
def newBreakerChans : BreakerChans := ⟨⟨false⟩, ⟨false⟩, ⟨false⟩, ⟨false⟩⟩

/-- `Destroy`: `close` the `ClosedChan`, `OpenChan`, `HalfOpenChan` and
`FallbackChan` in order; closing an already-closed channel panics. -/
def Destroy (b : BreakerChans) : Except Unit BreakerChans := do
  let c1 ← closeChan b.closedCh
  let c2 ← closeChan b.openCh
  let c3 ← closeChan b.halfOpenCh
  let c4 ← closeChan b.fallbackCh
  pure ⟨c1, c2, c3, c4⟩

/-- C9: divergence exhibit.  The first `Destroy` on a fresh breaker closes
all four channels; calling `Destroy` again on the resulting state panics
on the very first `close` (close of closed channel) instead of completing
without fault. -/
theorem destroy_twice_panics :
    Destroy newBreakerChans = .ok ⟨⟨true⟩, ⟨true⟩, ⟨true⟩, ⟨true⟩⟩ ∧
    Destroy ⟨⟨true⟩, ⟨true⟩, ⟨true⟩, ⟨true⟩⟩ = .error () := by
  decide

/-! ## Exponential backoff (`policies` package) -/

/-- `const maxInt64 = float64(math.MaxInt64 - 512)`: the float64 nearest
to `2^63 - 513`, namely `2^63 - 1024`. -/
def maxInt64F : ℚ := 9223372036854774784

/-- Go's float-to-integer conversion (`time.Duration(durf)`) truncates
toward zero. -/
def truncQ (q : ℚ) : Int := if 0 ≤ q then ⌊q⌋ else ⌈q⌉

/-- `math.Pow(f, n)` for a natural exponent. -/
def powQ (f : ℚ) : Nat → ℚ
  | 0 => 1
  | n + 1 => powQ f n * f

lemma powQ_eq_pow (f : ℚ) : ∀ n, powQ f n = f ^ n
  | 0 => by simp [powQ]
  | n + 1 => by rw [powQ, powQ_eq_pow f n, pow_succ]

/-- The `Exponential` backoff state: bounds and factor (after defaults
`min = 100ms`, `max = 10s`, `factor = 2` and the functional options are
applied; durations in nanoseconds as Go's `time.Duration`), plus the
running `attempt` counter. -/
structure Exponential where
  min : Int
  max : Int
  factor : ℚ
  attempt : Nat
deriving DecidableEq

/-- `NewExponential` after defaulting and options: construction fails
(`"Min ... cannot be greater than Max"`, a ConfigError) iff `min > max`;
otherwise the instance starts at `attempt = 0`. -/
def NewExponential (min max : Int) (factor : ℚ) : Except Unit Exponential :=
  if min > max then .error () else .ok ⟨min, max, factor, 0⟩

/-- `Duration()` of `Exponential`:
`durf := float64(min) * math.Pow(factor, float64(attempt))`; increment
`attempt`; if `durf` exceeds the float overflow guard return `max`;
otherwise clamp `time.Duration(durf)` to `[min, max]`. -/
def Duration (b : Exponential) : Int × Exponential :=
  let durf : ℚ := (b.min : ℚ) * powQ b.factor b.attempt
  let b1 : Exponential := { b with attempt := b.attempt + 1 }
  if durf > maxInt64F then (b.max, b1)
  else
    let dur : Int := truncQ durf
    if dur < b.min then (b.min, b1)
    else if dur > b.max then (b.max, b1)
    else (dur, b1)

/-- The value returned by the `n`-th `Duration()` call (0-indexed) on a
given instance. -/
def runDur (b : Exponential) : Nat → Int
  | 0 => (Duration b).1
  | n + 1 => runDur (Duration b).2 n

/-- `Duration()` always just increments the attempt counter in the
returned state, whichever branch produced the value. -/
lemma Duration_snd (b : Exponential) :
    (Duration b).2 = ⟨b.min, b.max, b.factor, b.attempt + 1⟩ := by
  simp only [Duration]
  split_ifs <;> rfl

lemma runDur_succ (b : Exponential) (n : Nat) :
    runDur b (n + 1) = runDur ⟨b.min, b.max, b.factor, b.attempt + 1⟩ n := by
  rw [runDur, Duration_snd]

/-- C8: counterexample.  `NewExponential` accepts a negative factor
(construction only checks `min > max`), and with `min = 1`, `max = 1000`,
`factor = -2` the returned sequence is not non-decreasing before any `max`
clamp: the third call returns 4 and the fourth returns 1. -/
theorem exponential_negative_factor_not_monotone :
    (NewExponential 1 1000 (-2) = .ok ⟨1, 1000, -2, 0⟩) ∧
    runDur ⟨1, 1000, -2, 0⟩ 2 = 4 ∧
    runDur ⟨1, 1000, -2, 0⟩ 3 = 1 ∧
    ¬(runDur ⟨1, 1000, -2, 0⟩ 2 ≤ runDur ⟨1, 1000, -2, 0⟩ 3) := by
  have h2 : runDur ⟨1, 1000, -2, 0⟩ 2 = 4 := by
    rw [runDur_succ, runDur_succ]
    norm_num [runDur, Duration, powQ, truncQ, maxInt64F]
  have h3 : runDur ⟨1, 1000, -2, 0⟩ 3 = 1 := by
    rw [runDur_succ, runDur_succ, runDur_succ]
    norm_num [runDur, Duration, powQ, truncQ, maxInt64F, Int.ceil_neg]
  refine ⟨by norm_num [NewExponential], h2, h3, ?_⟩
  rw [h2, h3]
  norm_num

/-- The clamp at the tail of `Duration()`. -/
def clampI (mn mx t : Int) : Int := if t < mn then mn else if t > mx then mx else t

/-- Closed form of the value produced at attempt `n`. -/
def durVal (mn mx : Int) (f : ℚ) (n : Nat) : Int :=
  if (mn : ℚ) * f ^ n > maxInt64F then mx
  else clampI mn mx (truncQ ((mn : ℚ) * f ^ n))

lemma Duration_fst (b : Exponential) :
    (Duration b).1 = durVal b.min b.max b.factor b.attempt := by
  simp only [Duration, durVal, clampI, powQ_eq_pow]
  split_ifs <;> rfl

lemma runDur_eq_durVal (mn mx : Int) (f : ℚ) :
    ∀ (n a : Nat), runDur ⟨mn, mx, f, a⟩ n = durVal mn mx f (a + n)
  | 0, a => by rw [runDur, Duration_fst]; simp
  | n + 1, a => by
      rw [runDur_succ]
      rw [runDur_eq_durVal mn mx f n (a + 1)]
      congr 1
      omega

lemma truncQ_mono {x y : ℚ} (h : x ≤ y) : truncQ x ≤ truncQ y := by
  unfold truncQ
  split_ifs with hx hy1 hy2
  · exact Int.floor_le_floor h
  · exact absurd (le_trans hx h) hy1
  · calc ⌈x⌉ ≤ 0 := Int.ceil_le.mpr (by exact_mod_cast le_of_not_le hx)
      _ ≤ ⌊y⌋ := Int.le_floor.mpr (by exact_mod_cast hy2)
  · exact Int.ceil_le_ceil h

lemma truncQ_intCast (n : Int) : truncQ (n : ℚ) = n := by
  unfold truncQ
  split_ifs
  · exact Int.floor_intCast n
  · exact Int.ceil_intCast n

lemma truncQ_le_of_le {q : ℚ} {n : Int} (h : q ≤ (n : ℚ)) : truncQ q ≤ n := by
  have h2 := truncQ_mono h
  rwa [truncQ_intCast] at h2

lemma clampI_mono {mn mx : Int} (hmm : mn ≤ mx) {x y : Int} (h : x ≤ y) :
    clampI mn mx x ≤ clampI mn mx y := by
  unfold clampI
  split_ifs <;> omega

lemma clampI_bounds {mn mx : Int} (hmm : mn ≤ mx) (t : Int) :
    mn ≤ clampI mn mx t ∧ clampI mn mx t ≤ mx := by
  unfold clampI
  split_ifs <;> omega

lemma clampI_eq_min {mn mx t : Int} (hmm : mn ≤ mx) (h : t ≤ mn) : clampI mn mx t = mn := by
  unfold clampI
  split_ifs <;> omega

lemma durVal_bounds {mn mx : Int} (hmm : mn ≤ mx) (f : ℚ) (n : Nat) :
    mn ≤ durVal mn mx f n ∧ durVal mn mx f n ≤ mx := by
  unfold durVal
  split_ifs
  · exact ⟨hmm, le_refl mx⟩
  · exact clampI_bounds hmm _

lemma durVal_step {mn mx : Int} {f : ℚ} (hmm : mn ≤ mx) (hf : 0 ≤ f)
    (hmb : (mn : ℚ) ≤ maxInt64F) (n : Nat) :
    durVal mn mx f n ≤ durVal mn mx f (n + 1) := by
  by_cases hf1 : 1 ≤ f
  · by_cases hm0 : (0 : Int) ≤ mn
    · have hm0Q : (0 : ℚ) ≤ (mn : ℚ) := by exact_mod_cast hm0
      have hP : (mn : ℚ) * f ^ n ≤ (mn : ℚ) * f ^ (n + 1) :=
        mul_le_mul_of_nonneg_left (pow_le_pow_right₀ hf1 (Nat.le_succ n)) hm0Q
      unfold durVal
      split_ifs with h1 h2 h3
      · exact le_refl mx
      · exact absurd (lt_of_lt_of_le h1 hP) h2
      · exact (clampI_bounds hmm _).2
      · exact clampI_mono hmm (truncQ_mono hP)
    · push_neg at hm0
      have hm0Q : (mn : ℚ) ≤ 0 := by exact_mod_cast hm0.le
      have key : ∀ m, durVal mn mx f m = mn := by
        intro m
        have hpow : (1 : ℚ) ≤ f ^ m := one_le_pow₀ hf1
        have h1 : (mn : ℚ) * f ^ m ≤ (mn : ℚ) := by
          have h4 := mul_le_mul_of_nonpos_left hpow hm0Q
          simpa using h4
        have hnb : ¬ ((mn : ℚ) * f ^ m > maxInt64F) := not_lt.mpr (h1.trans hmb)
        unfold durVal
        rw [if_neg hnb]
        exact clampI_eq_min hmm (truncQ_le_of_le h1)
      rw [key n, key (n + 1)]
  · push_neg at hf1
    by_cases hm0 : (0 : Int) ≤ mn
    · have hm0Q : (0 : ℚ) ≤ (mn : ℚ) := by exact_mod_cast hm0
      have key : ∀ m, durVal mn mx f m = mn := by
        intro m
        have hpow : f ^ m ≤ 1 := pow_le_one₀ hf hf1.le
        have h1 : (mn : ℚ) * f ^ m ≤ (mn : ℚ) := by
          have h4 := mul_le_mul_of_nonneg_left hpow hm0Q
          simpa using h4
        have hnb : ¬ ((mn : ℚ) * f ^ m > maxInt64F) := not_lt.mpr (h1.trans hmb)
        unfold durVal
        rw [if_neg hnb]
        exact clampI_eq_min hmm (truncQ_le_of_le h1)
      rw [key n, key (n + 1)]
    · push_neg at hm0
      have hm0Q : (mn : ℚ) ≤ 0 := by exact_mod_cast hm0.le
      have hP : (mn : ℚ) * f ^ n ≤ (mn : ℚ) * f ^ (n + 1) :=
        mul_le_mul_of_nonpos_left (pow_le_pow_of_le_one hf hf1.le (Nat.le_succ n)) hm0Q
      have hnb : ∀ m, ¬ ((mn : ℚ) * f ^ m > maxInt64F) := by
        intro m
        have hle : (mn : ℚ) * f ^ m ≤ 0 := by
          have h4 := mul_le_mul_of_nonneg_right hm0Q (pow_nonneg hf m)
          simpa using h4
        refine not_lt.mpr (hle.trans ?_)
        norm_num [maxInt64F]
      unfold durVal
      rw [if_neg (hnb n), if_neg (hnb (n + 1))]
      exact clampI_mono hmm (truncQ_mono hP)


/-- C8 (amended): for every instance with `min ≤ max`, a nonnegative
factor, and `min` below the float overflow guard (every duration except
the topmost 1024 ns of the `int64` range; the bound is an artifact of
modelling the float product exactly): construction fails with a
ConfigError exactly when `min > max`; every `Duration()` value lies in
`[min, max]`; overflow of the intermediate product saturates to `max`;
and the sequence of values is monotone non-decreasing — hence constant
once it reaches the `max` clamp.  (The original claim over all
constructible factors is refuted by `factor = -2`.) -/
theorem exponential_backoff_clamped_monotone (mn mx : Int) (f : ℚ)
    (hmm : mn ≤ mx) (hf : 0 ≤ f) (hmb : (mn : ℚ) ≤ maxInt64F) :
    (∀ (a b : Int) (g : ℚ), NewExponential a b g = .error () ↔ b < a) ∧
    (∀ n, mn ≤ runDur ⟨mn, mx, f, 0⟩ n ∧ runDur ⟨mn, mx, f, 0⟩ n ≤ mx) ∧
    (∀ n, (mn : ℚ) * f ^ n > maxInt64F → runDur ⟨mn, mx, f, 0⟩ n = mx) ∧
    (∀ n m, n ≤ m → runDur ⟨mn, mx, f, 0⟩ n ≤ runDur ⟨mn, mx, f, 0⟩ m) := by
  refine ⟨?_, ?_, ?_, ?_⟩
  · intro a b g
    by_cases h : a > b
    · simp only [NewExponential, if_pos h]
      simpa using h
    · simp only [NewExponential, if_neg h]
      simp only [reduceCtorEq, false_iff]
      omega
  · intro n
    rw [runDur_eq_durVal mn mx f n 0, Nat.zero_add]
    exact durVal_bounds hmm f n
  · intro n hov
    rw [runDur_eq_durVal mn mx f n 0, Nat.zero_add]
    unfold durVal
    rw [if_pos hov]
  · intro n m hnm
    rw [runDur_eq_durVal mn mx f n 0, runDur_eq_durVal mn mx f m 0, Nat.zero_add, Nat.zero_add]
    obtain ⟨k, rfl⟩ := Nat.exists_eq_add_of_le hnm
    clear hnm
    induction k with
    | zero => simp
    | succ j ih => exact le_trans ih (durVal_step hmm hf hmb (n + j))

theorem exponential_backoff_clamped_monotone_witness :
    ((100 : Int) ≤ 10000 ∧ (0 : ℚ) ≤ 2 ∧ ((100 : Int) : ℚ) ≤ maxInt64F) ∧
    runDur ⟨100, 10000, 2, 0⟩ 0 ≤ runDur ⟨100, 10000, 2, 0⟩ 3 :=
  ⟨⟨by norm_num, by norm_num, by norm_num [maxInt64F]⟩,
    (exponential_backoff_clamped_monotone 100 10000 2 (by norm_num) (by norm_num)
      (by norm_num [maxInt64F])).2.2.2 0 3 (by norm_num)⟩

end GoDcb
